import Mathlib

/-!
Shallow embedding of the study-organizer review scheduler (src/main.py).

Modelling conventions:
- dates are modelled as integers (ordinal day counts); `date.today()` becomes an
  explicit `today : Int` parameter and `timedelta(days=i)` becomes `+ i`;
- Python floats are modelled as rationals; `round` (round half to even) is
  modelled by `pyRound`;
- the flat-file stores are modelled as in-memory lists; each command is a
  function on those lists (the load/parse/save plumbing is abstracted away);
- printed tables are modelled as lists of row structures carrying the same
  fields the source prints.
-/

namespace StudyOrg

/-- Task record with fields id, subject, title, status, as parsed by
the source function named parse underscore task from a tasks-file line. -/
structure Task where
  id : Int
  subject : String
  title : String
  status : String
deriving DecidableEq, Repr

/-- ReviewState record with fields task id, interval in days, due date and
ease factor, as parsed by the source review-line parser. -/
structure Review where
  task_id : Int
  interval : Int
  due : Int
  ease : ℚ
deriving DecidableEq, Repr

def STATUS_TODO : String := "todo"

def STATUS_DOING : String := "doing"

def STATUS_DONE : String := "done"

/-- Python built-in round with no digits argument: round half to even,
returning an integer. -/
def pyRound (x : ℚ) : Int :=
  let n := ⌊x⌋
  let frac := x - n
  if frac < 1/2 then n
  else if 1/2 < frac then n + 1
  else if n % 2 = 0 then n else n + 1

/-- Source function update underscore ease: delta = 0.1 - (5 - q) * (0.08 +
(5 - q) * 0.02); result is max(1.3, ease + delta). -/
def update_ease (ease : ℚ) (quality : Int) : ℚ :=
  let delta : ℚ := 1/10 - ((5 - quality : Int) : ℚ) * (8/100 + ((5 - quality : Int) : ℚ) * (2/100))
  max (13/10) (ease + delta)

/-- The generator expression in cmd_review that looks for an existing
ReviewState for the given task id (first match or none). -/
def find_review (reviews : List Review) (task_id : Int) : Option Review :=
  reviews.find? (fun r => r.task_id == task_id)

/-- Source upsert_review: replace the first record with the given task id
in place, else append a new record at the end. -/
def upsert_review : List Review → Int → Int → Int → ℚ → List Review
  | [], task_id, interval_days, due, ease => [⟨task_id, interval_days, due, ease⟩]
  | r :: rs, task_id, interval_days, due, ease =>
    if r.task_id = task_id then ⟨task_id, interval_days, due, ease⟩ :: rs
    else r :: upsert_review rs task_id interval_days due ease

/-- The interval branch of cmd_review: 1 on quality below 3; 6 when the prior
interval is 0 or 1; otherwise max(1, round(interval * ease)) with the already
updated ease. -/
def new_interval (interval : Int) (ease : ℚ) (quality : Int) : Int :=
  if quality < 3 then 1
  else if interval = 0 ∨ interval = 1 then 6
  else max 1 (pyRound ((interval : ℚ) * ease))

/-- The record cmd_review builds from a prior interval and ease: updated ease,
new interval, and due date today plus the new interval. -/
def review_result (interval0 : Int) (ease0 : ℚ) (today task_id quality : Int) : Review :=
  let ease := update_ease ease0 quality
  let interval := new_interval interval0 ease quality
  ⟨task_id, interval, today + interval, ease⟩

/-- The prior (interval, ease) pair cmd_review starts from: the stored values
when a ReviewState exists for the task id, else the defaults (1, 2.5). -/
def prior_state (reviews : List Review) (task_id : Int) : Int × ℚ :=
  match find_review reviews task_id with
  | none => (1, 5/2)
  | some r => (r.interval, r.ease)

/-- Source cmd_review on the review store: compute the new record from the
prior state and upsert it. Note the source consults only the review store,
never the task store. -/
def cmd_review (reviews : List Review) (today task_id quality : Int) : List Review :=
  let p := prior_state reviews task_id
  let r := review_result p.1 p.2 today task_id quality
  upsert_review reviews task_id r.interval r.due r.ease

/-- Source overdue-flag helper on an already parsed due date: the string
OVERDUE when the date is strictly before today, else the empty string; a
missing date (None) also gives the empty string. -/
def overdue_flag (today : Int) (due : Option Int) : String :=
  match due with
  | none => ""
  | some d => if d < today then "OVERDUE" else ""

/-- The task dictionary built by the due and today queries: for duplicate ids
a later record overrides an earlier one, as in a Python dict comprehension. -/
def task_map (tasks : List Task) (tid : Int) : Option Task :=
  tasks.reverse.find? (fun t => t.id == tid)

/-- The due-date dictionary built by cmd_list_tasks from the review store;
later records override earlier ones for the same task id. -/
def due_map (reviews : List Review) (tid : Int) : Option Int :=
  (reviews.reverse.find? (fun r => r.task_id == tid)).map Review.due

/-- The sort key of the due query: ascending lexicographic order on the pair
(due, task id), as produced by the Python key tuple (r[2], r[0]). -/
def due_key (a b : Review) : Prop :=
  a.due < b.due ∨ (a.due = b.due ∧ a.task_id ≤ b.task_id)

instance : DecidableRel due_key := fun a b => by
  unfold due_key; infer_instance

/-- Python min over a nonempty list keyed by the due date: keeps the earlier
element on ties, takes a later one only when strictly smaller. -/
def min_by_due : Review → List Review → Review
  | best, [] => best
  | best, r :: rs => min_by_due (if r.due < best.due then r else best) rs

/-- One printed row of the due-query table, in the printed column order:
ID, Due, Int, Ease, Subject, Title, Flag. -/
structure DueRow where
  task_id : Int
  due : Int
  interval : Int
  ease : ℚ
  subject : String
  title : String
  flag : String
deriving DecidableEq, Repr

/-- The review fields a due-query row carries, reassembled as a record. -/
def DueRow.toReview (r : DueRow) : Review :=
  ⟨r.task_id, r.interval, r.due, r.ease⟩

/-- The three possible outputs of the due query: a table of rows, the message
naming the next due date, or the message that nothing is scheduled. -/
inductive DueOutput where
  | table (rows : List DueRow)
  | nextDue (d : Int)
  | noneScheduled
deriving DecidableEq, Repr

/-- Source cmd_review_due: filter records due on or before the given date
(default today); when none qualify report the earliest due date over the
whole store, or that nothing is scheduled when the store is empty; otherwise
print the qualifying records sorted by (due, task id), each row flagged
OVERDUE when its due date is strictly before today and DUE otherwise
(a stable sort models the Python sorted built-in). -/
def cmd_review_due (reviews : List Review) (tasks : List Task)
    (today : Int) (onDate : Option Int) : DueOutput :=
  let o := onDate.getD today
  let items := reviews.filter (fun r => decide (r.due ≤ o))
  if items.isEmpty then
    match reviews with
    | [] => .noneScheduled
    | r :: rs => .nextDue (min_by_due r rs).due
  else
    .table ((List.insertionSort due_key items).map (fun r =>
      { task_id := r.task_id, due := r.due, interval := r.interval, ease := r.ease,
        subject := (task_map tasks r.task_id).elim "?" Task.subject,
        title := (task_map tasks r.task_id).elim "<missing>" Task.title,
        flag := if r.due < today then "OVERDUE" else "DUE" }))

/-- One printed row of the list-tasks table: ID, Status, Subject, Title,
Due (none prints as a dash), Flag. -/
structure TaskRow where
  id : Int
  status : String
  subject : String
  title : String
  due : Option Int
  flag : String
deriving DecidableEq, Repr

/-- Source cmd_list_tasks: apply the optional case-insensitive subject and
status filters, then one row per remaining task; the overdue flag is computed
from the due map, with None passed instead when the task status is done. -/
def cmd_list_tasks (tasks : List Task) (reviews : List Review) (today : Int)
    (subject : Option String) (status : Option String) : List TaskRow :=
  let t1 := match subject with
    | none => tasks
    | some s => tasks.filter (fun t => t.subject.toLower == s.toLower)
  let t2 := match status with
    | none => t1
    | some s => t1.filter (fun t => t.status.toLower == s.toLower)
  t2.map (fun t =>
    { id := t.id, status := t.status, subject := t.subject, title := t.title,
      due := due_map reviews t.id,
      flag := overdue_flag today
        (if t.status ≠ STATUS_DONE then due_map reviews t.id else none) })

/-- The four data stores of the program, one field per data file. Session
lines are kept as raw strings; no claim inspects their fields. -/
structure State where
  subjects : List String
  tasks : List Task
  reviews : List Review
  sessions : List String
deriving DecidableEq, Repr

/-- The id computation of cmd_add_task: 1 for an empty task store, else the
maximum existing id plus one (the fold mirrors the Python max built-in). -/
def next_id (tasks : List Task) : Int :=
  match tasks with
  | [] => 1
  | t :: ts => (ts.foldl (fun m x => max m x.id) t.id) + 1

/-- Python str.strip modelled on the character list of the string: drop
whitespace from the front, then from the back. -/
def pyStrip (s : String) : String :=
  ⟨((s.data.dropWhile Char.isWhitespace).reverse.dropWhile Char.isWhitespace).reverse⟩

/-- The subjects known to the store after stripping, as in subjects_list. -/
def subjects_list (subjects : List String) : List String :=
  (subjects.map pyStrip).filter (fun s => s ≠ "")

/-- Source cmd_add_task: strip both inputs and do nothing when either is
empty; append the subject when its lowercase form is unseen; append a task
with the next id and status todo; initialize its ReviewState with interval 1,
due today and ease 2.5. -/
def cmd_add_task (st : State) (today : Int) (subject title : String) : State :=
  let subject := pyStrip subject
  let title := pyStrip title
  if subject = "" ∨ title = "" then st
  else
    let subjects :=
      if ((subjects_list st.subjects).map String.toLower).contains subject.toLower
      then st.subjects
      else st.subjects ++ [subject]
    let tid := next_id st.tasks
    { st with
      subjects := subjects,
      tasks := st.tasks ++ [⟨tid, subject, title, STATUS_TODO⟩],
      reviews := upsert_review st.reviews tid 1 today (5/2) }

/-- Source cmd_clear: empty every store for the target all, empty the single
named store for a known target, and change nothing for an unknown target. -/
def cmd_clear (st : State) (target : String) : State :=
  if target = "all" then ⟨[], [], [], []⟩
  else if target = "subjects" then { st with subjects := [] }
  else if target = "tasks" then { st with tasks := [] }
  else if target = "reviews" then { st with reviews := [] }
  else if target = "sessions" then { st with sessions := [] }
  else st

/-- The task-store update of cmd_update_status: overwrite the status of the
first task with the given id and leave everything after it untouched; no
match leaves the store unchanged. -/
def update_tasks_status : List Task → Int → String → List Task
  | [], _, _ => []
  | t :: ts, tid, s =>
    if t.id = tid then { t with status := s } :: ts
    else t :: update_tasks_status ts tid s

/-- Source cmd_update_status lifted to the full state. -/
def cmd_update_status (st : State) (tid : Int) (s : String) : State :=
  { st with tasks := update_tasks_status st.tasks tid s }

/-- The done command of the dispatcher: set the task status to done, then
immediately run cmd_review with quality 4 on the same task id. -/
def cmd_done (st : State) (today tid : Int) : State :=
  let st1 := cmd_update_status st tid STATUS_DONE
  { st1 with reviews := cmd_review st1.reviews today tid 4 }

/-- The number of review records held for a given task id. -/
def count_id (reviews : List Review) (t : Int) : Nat :=
  reviews.countP (fun r => r.task_id == t)

/-! Helper lemmas about upsert_review -/

lemma mem_upsert_review (reviews : List Review) (tid i d : Int) (e : ℚ) :
    (⟨tid, i, d, e⟩ : Review) ∈ upsert_review reviews tid i d e := by
  induction reviews with
  | nil => exact List.mem_singleton.mpr rfl
  | cons r rs ih =>
    simp only [upsert_review]
    split_ifs with h
    · exact List.mem_cons_self _ _
    · exact List.mem_cons_of_mem _ ih

lemma upsert_review_append (reviews : List Review) (tid i d : Int) (e : ℚ)
    (h : ∀ r ∈ reviews, r.task_id ≠ tid) :
    upsert_review reviews tid i d e = reviews ++ [⟨tid, i, d, e⟩] := by
  induction reviews with
  | nil => rfl
  | cons r rs ih =>
    have hr : r.task_id ≠ tid := h r (List.mem_cons_self r rs)
    simp only [upsert_review, if_neg hr, List.cons_append, List.cons.injEq, true_and]
    exact ih (fun x hx => h x (List.mem_cons_of_mem r hx))

lemma count_id_upsert_ne (reviews : List Review) (tid i d : Int) (e : ℚ)
    (t : Int) (h : tid ≠ t) :
    count_id (upsert_review reviews tid i d e) t = count_id reviews t := by
  induction reviews with
  | nil => simp [upsert_review, count_id, List.countP_cons, h]
  | cons r rs ih =>
    simp only [upsert_review]
    split_ifs with hr
    · simp [count_id, List.countP_cons, h, hr]
    · simp only [count_id, List.countP_cons] at ih ⊢
      omega

lemma count_id_cons (r : Review) (rs : List Review) (t : Int) :
    count_id (r :: rs) t = count_id rs t + (if r.task_id = t then 1 else 0) := by
  simp [count_id, List.countP_cons]

lemma count_id_upsert_self (reviews : List Review) (tid i d : Int) (e : ℚ) :
    count_id (upsert_review reviews tid i d e) tid
      = if count_id reviews tid = 0 then 1 else count_id reviews tid := by
  induction reviews with
  | nil => simp [upsert_review, count_id, List.countP_cons]
  | cons r rs ih =>
    by_cases hr : r.task_id = tid
    · simp only [upsert_review, if_pos hr, count_id_cons, if_pos rfl, if_true]
      rw [if_neg (by omega)]
    · simp only [upsert_review, if_neg hr, count_id_cons, ih, Nat.add_zero]

/-! Helper lemmas about min_by_due and the due-query sort order -/

lemma min_by_due_mem (best : Review) (l : List Review) :
    min_by_due best l = best ∨ min_by_due best l ∈ l := by
  induction l generalizing best with
  | nil => exact Or.inl rfl
  | cons r rs ih =>
    simp only [min_by_due]
    rcases ih (if r.due < best.due then r else best) with h | h
    · rw [h]
      split_ifs with hc
      · exact Or.inr (List.mem_cons_self _ _)
      · exact Or.inl rfl
    · exact Or.inr (List.mem_cons_of_mem _ h)

lemma min_by_due_le (best : Review) (l : List Review) :
    (min_by_due best l).due ≤ best.due ∧ ∀ r ∈ l, (min_by_due best l).due ≤ r.due := by
  induction l generalizing best with
  | nil => exact ⟨le_refl _, by simp⟩
  | cons r rs ih =>
    simp only [min_by_due]
    obtain ⟨h1, h2⟩ := ih (if r.due < best.due then r else best)
    have hb : (if r.due < best.due then r else best).due ≤ best.due := by
      split_ifs with hc
      · omega
      · exact le_refl _
    have hr : (if r.due < best.due then r else best).due ≤ r.due := by
      split_ifs with hc
      · exact le_refl _
      · omega
    refine ⟨le_trans h1 hb, fun x hx => ?_⟩
    rcases List.mem_cons.mp hx with rfl | hx
    · exact le_trans h1 hr
    · exact h2 x hx

lemma foldl_max_le (l : List Task) (init : Int) :
    init ≤ l.foldl (fun m x => max m x.id) init ∧
    ∀ t ∈ l, t.id ≤ l.foldl (fun m x => max m x.id) init := by
  induction l generalizing init with
  | nil => exact ⟨le_refl _, by simp⟩
  | cons t ts ih =>
    obtain ⟨h1, h2⟩ := ih (max init t.id)
    refine ⟨le_trans (le_max_left _ _) h1, fun x hx => ?_⟩
    rcases List.mem_cons.mp hx with rfl | hx
    · exact le_trans (le_max_right _ _) h1
    · exact h2 x hx

lemma foldl_max_mem (l : List Task) (init : Int) :
    l.foldl (fun m x => max m x.id) init = init ∨
    ∃ t ∈ l, l.foldl (fun m x => max m x.id) init = t.id := by
  induction l generalizing init with
  | nil => exact Or.inl rfl
  | cons t ts ih =>
    rcases ih (max init t.id) with h | ⟨x, hx, hxx⟩
    · rcases max_choice init t.id with h' | h'
      · exact Or.inl (by rw [List.foldl_cons, h, h'])
      · exact Or.inr ⟨t, List.mem_cons_self t ts, by rw [List.foldl_cons, h, h']⟩
    · exact Or.inr ⟨x, List.mem_cons_of_mem t hx, by rw [List.foldl_cons]; exact hxx⟩

instance : IsTotal Review due_key :=
  ⟨fun a b => by unfold due_key; omega⟩

instance : IsTrans Review due_key :=
  ⟨fun a b c hab hbc => by unfold due_key at *; omega⟩

/-! Theorems -/

/-- Claim C1: for a review with prior interval i and updated ease, a quality
below 3 resets the interval to 1; quality at least 3 with prior interval 0 or
1 gives 6; otherwise the interval is max(1, round(i * updated ease)); and the
new interval is at least 1 in every case. -/
theorem claim_C1_interval_update (i : Int) (e0 : ℚ) (today tid q : Int) :
    (q < 3 → (review_result i e0 today tid q).interval = 1) ∧
    (3 ≤ q → (i = 0 ∨ i = 1) → (review_result i e0 today tid q).interval = 6) ∧
    (3 ≤ q → i ≠ 0 → i ≠ 1 →
      (review_result i e0 today tid q).interval
        = max 1 (pyRound ((i : ℚ) * update_ease e0 q))) ∧
    1 ≤ (review_result i e0 today tid q).interval := by
  simp only [review_result, new_interval]
  refine ⟨fun h => by rw [if_pos h], fun h3 hi => ?_, fun h3 h0 h1 => ?_, ?_⟩
  · rw [if_neg (by omega), if_pos hi]
  · rw [if_neg (by omega), if_neg (by tauto)]
  · split_ifs with h h2
    · exact le_refl 1
    · norm_num
    · exact le_max_left 1 _

/-- Witness for claim C1 at concrete inputs. -/
theorem claim_C1_interval_update_witness :
    (review_result 6 (5/2) 0 1 2).interval = 1 ∧
    (review_result 1 (5/2) 0 1 4).interval = 6 ∧
    (review_result 6 (5/2) 0 1 5).interval
      = max 1 (pyRound ((6 : ℚ) * update_ease (5/2) 5)) ∧
    1 ≤ (review_result 6 (5/2) 0 1 2).interval :=
  ⟨(claim_C1_interval_update 6 (5/2) 0 1 2).1 (by decide),
   (claim_C1_interval_update 1 (5/2) 0 1 4).2.1 (by decide) (Or.inr rfl),
   (claim_C1_interval_update 6 (5/2) 0 1 5).2.2.1 (by decide) (by decide) (by decide),
   (claim_C1_interval_update 6 (5/2) 0 1 2).2.2.2⟩

/-- Claim C2: for every ease value and every integer quality, also out of
range, the updated ease is max(1.3, ease + 0.1 - (5 - q)(0.08 + (5 - q)0.02));
quality 5 adds 0.1, quality 3 adds -0.14, quality 0 adds -0.8 before the 1.3
floor; the out-of-range quality 7 is accepted and adds 0.18. -/
theorem claim_C2_ease_formula (e : ℚ) (q : Int) :
    update_ease e q
      = max (13/10)
          (e + (1/10 - ((5 - q : Int) : ℚ) * (8/100 + ((5 - q : Int) : ℚ) * (2/100)))) ∧
    update_ease e 5 = max (13/10) (e + 1/10) ∧
    update_ease e 3 = max (13/10) (e - 14/100) ∧
    update_ease e 0 = max (13/10) (e - 8/10) ∧
    update_ease e 7 = max (13/10) (e + 18/100) := by
  refine ⟨rfl, ?_, ?_, ?_, ?_⟩ <;>
    · unfold update_ease
      norm_num [sub_eq_add_neg]

/-- Claim C9: for a fixed ease value the ease update is monotone
non-decreasing in the quality over the range 0..5, and its result is always
at least 1.3. -/
theorem claim_C9_ease_monotone (e : ℚ) (q1 q2 : Int) :
    (0 ≤ q1 → q1 ≤ q2 → q2 ≤ 5 → update_ease e q1 ≤ update_ease e q2) ∧
    (13/10 : ℚ) ≤ update_ease e q1 := by
  constructor
  · intro h0 h12 h25
    unfold update_ease
    apply max_le_max le_rfl
    apply add_le_add_left
    set a : ℚ := ((5 - q1 : Int) : ℚ) with ha
    set b : ℚ := ((5 - q2 : Int) : ℚ) with hb
    have hb0 : 0 ≤ b := by rw [hb]; exact_mod_cast (by omega : (0 : Int) ≤ 5 - q2)
    have hba : b ≤ a := by rw [ha, hb]; exact_mod_cast (by omega : (5 - q2 : Int) ≤ 5 - q1)
    nlinarith [mul_nonneg (sub_nonneg.mpr hba) hb0, sq_nonneg (a - b), sq_nonneg (a + b)]
  · exact le_max_left _ _

/-- Witness for claim C9 at concrete inputs. -/
theorem claim_C9_ease_monotone_witness :
    update_ease 2 2 ≤ update_ease 2 4 ∧ (13/10 : ℚ) ≤ update_ease 2 0 :=
  ⟨(claim_C9_ease_monotone 2 2 4).1 (by decide) (by decide) (by decide),
   (claim_C9_ease_monotone 2 0 0).2⟩

/-- Claim C4 as amended: cmd_review never consults the task store and never
signals a missing task; even when the task id is absent from the task store
it performs the upsert, so the review store ends up holding a record for that
id. -/
theorem claim_C4_review_no_task_check (tasks : List Task) (reviews : List Review)
    (today tid q : Int) :
    (∀ t ∈ tasks, t.id ≠ tid) →
    ∃ r ∈ cmd_review reviews today tid q, r.task_id = tid := by
  intro _
  exact ⟨_, mem_upsert_review reviews tid _ _ _, rfl⟩

/-- Witness for the amended claim C4 at concrete inputs. -/
theorem claim_C4_review_no_task_check_witness :
    ∃ r ∈ cmd_review [] 0 999 4, r.task_id = 999 :=
  claim_C4_review_no_task_check [] [] 0 999 4 (by simp)

/-- Counterexample to claim C4 as stated: with an empty task store, reviewing
the never-created task id 999 mutates the review store and creates a
ReviewState for it, instead of signalling NotFound without mutation. -/
theorem claim_C4_counterexample :
    cmd_review [] 0 999 4 = [⟨999, 6, 6, 5/2⟩] ∧
    (∀ t ∈ ([] : List Task), t.id ≠ 999) := by
  refine ⟨?_, by simp⟩
  have he : update_ease (5/2) 4 = 5/2 := by unfold update_ease; norm_num
  simp only [cmd_review, prior_state, find_review, List.find?_nil, review_result,
    new_interval, upsert_review, he]
  norm_num

/-- Claim C6: when no ReviewState exists for the task id, cmd_review starts
from the defaults interval 1 and ease 2.5 and appends the resulting record;
and in every case the due date of the computed record is today plus its
interval. -/
theorem claim_C6_defaults_and_due (reviews : List Review) (today tid q : Int) :
    (find_review reviews tid = none →
      cmd_review reviews today tid q
        = reviews ++ [review_result 1 (5/2) today tid q]) ∧
    ∀ i0 e0, (review_result i0 e0 today tid q).due
        = today + (review_result i0 e0 today tid q).interval := by
  constructor
  · intro h
    have hall : ∀ r ∈ reviews, r.task_id ≠ tid := by
      intro r hr
      have := List.find?_eq_none.mp h r hr
      simpa using this
    simp only [cmd_review, prior_state, h]
    exact upsert_review_append reviews tid _ _ _ hall
  · intro i0 e0
    rfl

/-- Witness for claim C6 at concrete inputs. -/
theorem claim_C6_defaults_and_due_witness :
    (cmd_review [⟨2, 3, 4, 2⟩] 0 1 5
      = [⟨2, 3, 4, 2⟩] ++ [review_result 1 (5/2) 0 1 5]) ∧
    (review_result 3 2 0 1 5).due = 0 + (review_result 3 2 0 1 5).interval :=
  ⟨(claim_C6_defaults_and_due [⟨2, 3, 4, 2⟩] 0 1 5).1 (by decide),
   (claim_C6_defaults_and_due [⟨2, 3, 4, 2⟩] 0 1 5).2 3 2⟩

/-- Claim C7: if the review store holds at most one record per task id, then
after an upsert it still does, and it holds exactly one record for the
upserted task id. -/
theorem claim_C7_upsert_unique (reviews : List Review) (tid i d : Int) (e : ℚ) :
    (∀ t, count_id reviews t ≤ 1) →
    (∀ t, count_id (upsert_review reviews tid i d e) t ≤ 1) ∧
    count_id (upsert_review reviews tid i d e) tid = 1 := by
  intro h
  constructor
  · intro t
    by_cases ht : tid = t
    · subst ht
      rw [count_id_upsert_self]
      have := h tid
      split_ifs <;> omega
    · rw [count_id_upsert_ne reviews tid i d e t ht]
      exact h t
  · rw [count_id_upsert_self]
    have := h tid
    split_ifs with h0
    · rfl
    · omega

/-- Witness for claim C7 at concrete inputs. -/
theorem claim_C7_upsert_unique_witness :
    (∀ t, count_id (upsert_review [⟨2, 1, 0, 2⟩] 1 6 6 (5/2)) t ≤ 1) ∧
    count_id (upsert_review [⟨2, 1, 0, 2⟩] 1 6 6 (5/2)) 1 = 1 :=
  claim_C7_upsert_unique [⟨2, 1, 0, 2⟩] 1 6 6 (5/2) (fun t => by
    simp only [count_id, List.countP_cons, List.countP_nil, beq_iff_eq]
    split_ifs <;> omega)

/-- Claim C3: the due query returns exactly the records due on or before the
given date, sorted ascending by the pair (due, task id); with a non-empty
store and nothing due it reports the minimum due date over all records; with
an empty store it reports that nothing is scheduled. -/
theorem claim_C3_due_query (reviews : List Review) (tasks : List Task)
    (today asOf : Int) :
    (reviews = [] → cmd_review_due reviews tasks today (some asOf) = .noneScheduled) ∧
    ((∃ r ∈ reviews, r.due ≤ asOf) →
      ∃ rows, cmd_review_due reviews tasks today (some asOf) = .table rows) ∧
    (∀ rows, cmd_review_due reviews tasks today (some asOf) = .table rows →
      (rows.map DueRow.toReview).Perm
        (reviews.filter (fun r => decide (r.due ≤ asOf))) ∧
      rows.Pairwise (fun a b => a.due < b.due ∨ (a.due = b.due ∧ a.task_id ≤ b.task_id))) ∧
    (reviews ≠ [] → (∀ r ∈ reviews, ¬ r.due ≤ asOf) →
      ∃ d, cmd_review_due reviews tasks today (some asOf) = .nextDue d ∧
        (∃ r ∈ reviews, r.due = d) ∧ ∀ r ∈ reviews, d ≤ r.due) := by
  refine ⟨fun h => by subst h; rfl, ?_, ?_, ?_⟩
  · rintro ⟨r, hr, hle⟩
    have hmem : r ∈ reviews.filter (fun r => decide (r.due ≤ asOf)) :=
      List.mem_filter.mpr ⟨hr, by simpa using hle⟩
    have hne : (reviews.filter (fun r => decide (r.due ≤ asOf))).isEmpty ≠ true := by
      intro h
      rw [List.isEmpty_iff] at h
      rw [h] at hmem
      exact absurd hmem (List.not_mem_nil r)
    simp only [cmd_review_due, Option.getD_some]
    rw [if_neg hne]
    exact ⟨_, rfl⟩
  · intro rows h
    simp only [cmd_review_due, Option.getD_some] at h
    by_cases hemp : (reviews.filter (fun r => decide (r.due ≤ asOf))).isEmpty = true
    · rw [if_pos hemp] at h
      cases reviews <;> simp at h
    · rw [if_neg hemp] at h
      rw [DueOutput.table.injEq] at h
      subst h
      constructor
      · have hid : ∀ r : Review,
            DueRow.toReview
              { task_id := r.task_id, due := r.due, interval := r.interval, ease := r.ease,
                subject := (task_map tasks r.task_id).elim "?" Task.subject,
                title := (task_map tasks r.task_id).elim "<missing>" Task.title,
                flag := if r.due < today then "OVERDUE" else "DUE" } = r :=
          fun r => rfl
        rw [List.map_map]
        simp only [Function.comp_def, hid]
        simpa using List.perm_insertionSort due_key
          (reviews.filter (fun r => decide (r.due ≤ asOf)))
      · rw [List.pairwise_map]
        exact (List.sorted_insertionSort due_key _).imp (fun {a b} hab => hab)
  · intro hne hnone
    have hfil : reviews.filter (fun r => decide (r.due ≤ asOf)) = [] := by
      rw [List.filter_eq_nil_iff]
      intro r hr
      simpa using hnone r hr
    simp only [cmd_review_due, Option.getD_some, hfil, List.isEmpty_nil, if_pos]
    match reviews, hne with
    | r :: rs, _ =>
      refine ⟨(min_by_due r rs).due, rfl, ?_, ?_⟩
      · rcases min_by_due_mem r rs with h | h
        · exact ⟨r, List.mem_cons_self r rs, by rw [h]⟩
        · exact ⟨min_by_due r rs, List.mem_cons_of_mem r h, rfl⟩
      · intro x hx
        rcases List.mem_cons.mp hx with rfl | hx
        · exact (min_by_due_le x rs).1
        · exact (min_by_due_le r rs).2 x hx

/-- Witness for claim C3 at concrete inputs, one per branch of the query. -/
theorem claim_C3_due_query_witness :
    (cmd_review_due [] [] 0 (some 5) = .noneScheduled) ∧
    (∃ rows, cmd_review_due [⟨1, 2, 3, 2⟩] [] 0 (some 5) = .table rows) ∧
    (([(⟨1, 3, 2, 2, "?", "<missing>", "DUE"⟩ : DueRow)].map DueRow.toReview).Perm
        (([⟨1, 2, 3, 2⟩] : List Review).filter (fun r => decide (r.due ≤ (5 : Int)))) ∧
      ([(⟨1, 3, 2, 2, "?", "<missing>", "DUE"⟩ : DueRow)]).Pairwise
        (fun a b => a.due < b.due ∨ (a.due = b.due ∧ a.task_id ≤ b.task_id))) ∧
    (∃ d, cmd_review_due [⟨1, 2, 9, 2⟩] [] 0 (some 5) = .nextDue d ∧
      (∃ r ∈ ([⟨1, 2, 9, 2⟩] : List Review), r.due = d) ∧
      ∀ r ∈ ([⟨1, 2, 9, 2⟩] : List Review), d ≤ r.due) :=
  ⟨(claim_C3_due_query [] [] 0 5).1 rfl,
   (claim_C3_due_query [⟨1, 2, 3, 2⟩] [] 0 5).2.1 ⟨⟨1, 2, 3, 2⟩, by simp, by norm_num⟩,
   (claim_C3_due_query [⟨1, 2, 3, 2⟩] [] 0 5).2.2.1
     [⟨1, 3, 2, 2, "?", "<missing>", "DUE"⟩] rfl,
   (claim_C3_due_query [⟨1, 2, 9, 2⟩] [] 0 5).2.2.2 (by simp)
     (by intro r hr; simp at hr; subst hr; norm_num)⟩

/-- Counterexample to claim C5 as stated: in the due-query output a record
whose task is done is still flagged OVERDUE when its due date is before
today, so the flag does not require the task status to differ from done. -/
theorem claim_C5_counterexample :
    cmd_review_due [⟨1, 6, 9, 5/2⟩] [⟨1, "Math", "Algebra", "done"⟩] 10 none
      = .table [⟨1, 9, 6, 5/2, "Math", "Algebra", "OVERDUE"⟩] ∧
    task_map [⟨1, "Math", "Algebra", "done"⟩] 1 = some ⟨1, "Math", "Algebra", "done"⟩ ∧
    STATUS_DONE = "done" :=
  ⟨rfl, rfl, rfl⟩

/-- Claim C5 as amended: flags are computed at query time from the stored
fields; in the list-tasks output a row is flagged OVERDUE exactly when its
status is not done and its mapped due date is strictly before today, while in
the due-query output a row is flagged OVERDUE exactly when its due date is
strictly before today, regardless of the task status (DUE otherwise). -/
theorem claim_C5_flag_semantics (reviews : List Review) (tasks : List Task)
    (today : Int) (onDate : Option Int) (subj stat : Option String) :
    (∀ rows, cmd_review_due reviews tasks today onDate = .table rows →
      ∀ row ∈ rows, row.flag = "OVERDUE" ↔ row.due < today) ∧
    (∀ row ∈ cmd_list_tasks tasks reviews today subj stat,
      row.flag = "OVERDUE" ↔
        (row.status ≠ STATUS_DONE ∧ ∃ d, due_map reviews row.id = some d ∧ d < today)) := by
  have hDUE : ("DUE" : String) ≠ "OVERDUE" := by decide
  have hEmpty : ("" : String) ≠ "OVERDUE" := by decide
  constructor
  · intro rows h
    simp only [cmd_review_due] at h
    by_cases hemp :
        (reviews.filter (fun r => decide (r.due ≤ onDate.getD today))).isEmpty = true
    · rw [if_pos hemp] at h
      cases reviews <;> simp at h
    · rw [if_neg hemp] at h
      rw [DueOutput.table.injEq] at h
      subst h
      intro row hrow
      rcases List.mem_map.mp hrow with ⟨r, hr, rfl⟩
      show (if r.due < today then "OVERDUE" else "DUE") = "OVERDUE" ↔ r.due < today
      split_ifs with hc
      · simpa using hc
      · simpa [hDUE] using hc
  · intro row hrow
    simp only [cmd_list_tasks] at hrow
    rcases List.mem_map.mp hrow with ⟨t, htm, rfl⟩
    show overdue_flag today (if t.status ≠ STATUS_DONE then due_map reviews t.id else none)
        = "OVERDUE" ↔ (t.status ≠ STATUS_DONE ∧ ∃ d, due_map reviews t.id = some d ∧ d < today)
    by_cases hd : t.status = STATUS_DONE
    · rw [if_neg (fun hne => hne hd)]
      refine iff_of_false (fun hcon => hEmpty hcon) ?_
      rintro ⟨hc, -⟩
      exact hc hd
    · rw [if_pos hd]
      cases hdm : due_map reviews t.id with
      | none =>
        refine iff_of_false (fun hcon => hEmpty hcon) ?_
        rintro ⟨-, d, hdd, -⟩
        cases hdd
      | some d =>
        show (if d < today then "OVERDUE" else "") = "OVERDUE" ↔ _
        split_ifs with hlt
        · exact iff_of_true rfl ⟨hd, d, rfl, hlt⟩
        · refine iff_of_false hEmpty ?_
          rintro ⟨-, d2, hdd, hlt2⟩
          injection hdd with hdd
          subst hdd
          exact hlt hlt2

/-- Witness for the amended claim C5 at concrete inputs. -/
theorem claim_C5_flag_semantics_witness :
    (∀ row ∈ [(⟨1, 3, 2, 2, "?", "<missing>", "DUE"⟩ : DueRow)],
      row.flag = "OVERDUE" ↔ row.due < (0 : Int)) ∧
    (∀ row ∈ cmd_list_tasks [⟨1, "s", "t", "todo"⟩] [⟨1, 0, -1, 2⟩] 0 none none,
      row.flag = "OVERDUE" ↔
        (row.status ≠ STATUS_DONE ∧
          ∃ d, due_map [⟨1, 0, -1, 2⟩] row.id = some d ∧ d < (0 : Int))) :=
  ⟨(claim_C5_flag_semantics [⟨1, 2, 3, 2⟩] [] 0 (some 5) none none).1
      [⟨1, 3, 2, 2, "?", "<missing>", "DUE"⟩] rfl,
   (claim_C5_flag_semantics [⟨1, 0, -1, 2⟩] [⟨1, "s", "t", "todo"⟩] 0 none none none).2⟩

/-- A sample state with three tasks and one session line, used by witnesses. -/
def sample_state : State :=
  ⟨["Math"], [⟨1, "Math", "a", "todo"⟩, ⟨2, "Math", "b", "done"⟩, ⟨3, "Math", "c", "todo"⟩],
   [], ["x"]⟩

/-- Claim C8: with non-empty inputs, add-task appends one task whose id is
next_id of the store, which is 1 on an empty store; every existing id is
strictly below the new id, and on a non-empty store the new id is the maximum
existing id plus one; clearing the sessions store leaves the task store
untouched. -/
theorem claim_C8_task_ids (st : State) (today : Int) (subject title : String) :
    pyStrip subject ≠ "" → pyStrip title ≠ "" →
    ((cmd_add_task st today subject title).tasks
      = st.tasks ++ [⟨next_id st.tasks, pyStrip subject, pyStrip title, STATUS_TODO⟩]) ∧
    (st.tasks = [] → next_id st.tasks = 1) ∧
    (∀ t ∈ st.tasks, t.id < next_id st.tasks) ∧
    (st.tasks ≠ [] → ∃ t ∈ st.tasks, next_id st.tasks = t.id + 1) ∧
    ((cmd_clear st "sessions").tasks = st.tasks) := by
  intro hs ht
  refine ⟨?_, fun h => by rw [h]; rfl, ?_, ?_, rfl⟩
  · simp only [cmd_add_task, if_neg (not_or.mpr ⟨hs, ht⟩)]
  · intro t htm
    match hts : st.tasks, htm with
    | x :: ts, htm =>
      simp only [next_id]
      rcases List.mem_cons.mp htm with rfl | hmem
      · have := (foldl_max_le ts t.id).1
        omega
      · have := (foldl_max_le ts x.id).2 t hmem
        omega
  · intro hne
    match hts : st.tasks, hne with
    | x :: ts, _ =>
      simp only [next_id]
      rcases foldl_max_mem ts x.id with h | ⟨t, htm, htt⟩
      · exact ⟨x, List.mem_cons_self x ts, by rw [h]⟩
      · exact ⟨t, List.mem_cons_of_mem x htm, by rw [htt]⟩

/-- Witness for claim C8: with tasks 1, 2, 3 present, clearing only the
sessions store and then adding a task yields id 4. -/
theorem claim_C8_task_ids_witness :
    (((cmd_add_task (cmd_clear sample_state "sessions") 0 "Math" "Calc").tasks
      = (cmd_clear sample_state "sessions").tasks
        ++ [⟨next_id (cmd_clear sample_state "sessions").tasks,
             pyStrip "Math", pyStrip "Calc", STATUS_TODO⟩]) ∧
    ((cmd_clear sample_state "sessions").tasks = [] →
      next_id (cmd_clear sample_state "sessions").tasks = 1) ∧
    (∀ t ∈ (cmd_clear sample_state "sessions").tasks,
      t.id < next_id (cmd_clear sample_state "sessions").tasks) ∧
    ((cmd_clear sample_state "sessions").tasks ≠ [] →
      ∃ t ∈ (cmd_clear sample_state "sessions").tasks,
        next_id (cmd_clear sample_state "sessions").tasks = t.id + 1) ∧
    ((cmd_clear (cmd_clear sample_state "sessions") "sessions").tasks
      = (cmd_clear sample_state "sessions").tasks)) ∧
    next_id (cmd_clear sample_state "sessions").tasks = 4 :=
  ⟨claim_C8_task_ids (cmd_clear sample_state "sessions") 0 "Math" "Calc"
      (by decide) (by decide), rfl⟩

/-! Helper lemma for the done command -/

lemma find?_update_tasks_status (tasks : List Task) (tid : Int) (s : String) (t0 : Task)
    (h : tasks.find? (fun t => t.id == tid) = some t0) :
    (update_tasks_status tasks tid s).find? (fun t => t.id == tid)
      = some { t0 with status := s } := by
  induction tasks with
  | nil => simp at h
  | cons t ts ih =>
    cases hbb : (t.id == tid) with
    | true =>
      have ht : t.id = tid := beq_iff_eq.mp hbb
      simp only [List.find?_cons, hbb] at h
      injection h with h
      subst h
      simp only [update_tasks_status, if_pos ht, List.find?_cons, hbb]
    | false =>
      have ht : ¬ t.id = tid := by simpa using hbb
      simp only [List.find?_cons, hbb] at h
      simp only [update_tasks_status, if_neg ht, List.find?_cons, hbb]
      exact ih h

/-- Claim C10: when the task exists, the done command sets its status to done
in the task store and also immediately runs the review update with quality 4
on the same task id, replacing its ReviewState with the record computed from
the prior interval and ease. -/
theorem claim_C10_done_records_review (st : State) (today tid : Int) (t0 : Task)
    (h : st.tasks.find? (fun t => t.id == tid) = some t0) :
    ((cmd_done st today tid).tasks.find? (fun t => t.id == tid)
        = some { t0 with status := STATUS_DONE }) ∧
    (cmd_done st today tid).reviews = cmd_review st.reviews today tid 4 ∧
    ∃ r ∈ (cmd_done st today tid).reviews,
      r = review_result (prior_state st.reviews tid).1 (prior_state st.reviews tid).2
            today tid 4 :=
  ⟨find?_update_tasks_status st.tasks tid STATUS_DONE t0 h, rfl,
   ⟨_, mem_upsert_review st.reviews tid _ _ _, rfl⟩⟩

/-- Witness for claim C10 at concrete inputs. -/
theorem claim_C10_done_records_review_witness :
    ((cmd_done ⟨[], [⟨1, "s", "t", "todo"⟩], [], []⟩ 0 1).tasks.find?
        (fun t => t.id == (1 : Int)) = some ⟨1, "s", "t", STATUS_DONE⟩) ∧
    (cmd_done ⟨[], [⟨1, "s", "t", "todo"⟩], [], []⟩ 0 1).reviews
      = cmd_review [] 0 1 4 ∧
    ∃ r ∈ (cmd_done ⟨[], [⟨1, "s", "t", "todo"⟩], [], []⟩ 0 1).reviews,
      r = review_result (prior_state [] 1).1 (prior_state [] 1).2 0 1 4 :=
  claim_C10_done_records_review ⟨[], [⟨1, "s", "t", "todo"⟩], [], []⟩ 0 1
    ⟨1, "s", "t", "todo"⟩ rfl

end StudyOrg
